import Mathlib

/-!
Verification of the pico-freeRTOS examples and of the kernel mechanisms they
exercise.  C++ machine integers are embedded as their bit patterns: natural
numbers reduced modulo 2^32 where overflow matters, so that bitwise `|` and `&`
are `Nat.lor` and `Nat.land` on patterns and the C++ conversion of an integer
to `bool` is the test `!= 0`.
-/

namespace PicoFreeRTOS

/-! ### part_008 `main`: task-creation error accumulation

The source reads
`bool error = false; error |= xTaskCreate(...); error |= xTaskCreate(...);
if (error != true) { printf("Task creation failed"); }`. -/

/-- C++ `error |= r` where `error : bool` and `r : BaseType_t`: the bool is
promoted to the integer 1 or 0, bitwise-or'ed with the pattern of `r`, and the
result converted back to `bool` (true iff nonzero). -/
def boolOrAssign (error : Bool) (r : Nat) : Bool :=
  ((if error then 1 else 0) ||| r) != 0

/-- The value of `error` in `main` of part_008 after the two `|=` accumulations
of the `xTaskCreate` result patterns `r1` and `r2`. -/
def part008_error (r1 r2 : Nat) : Bool :=
  boolOrAssign (boolOrAssign false r1) r2

/-- Whether `main` of part_008 prints "Task creation failed": the guard is
`error != true`. -/
def part008_printsFailure (r1 r2 : Nat) : Bool :=
  part008_error r1 r2 != true

/-! ### part_007 `vEventBitReadingTask`: the three bit tests -/

/-- Event bit mask `1UL << 0UL` of part_007. -/
def mainFIRST_TASK_BIT : Nat := 1 <<< 0

/-- Event bit mask `1UL << 1UL` of part_007. -/
def mainSECOND_TASK_BIT : Nat := 1 <<< 1

/-- Event bit mask `1UL << 2UL` of part_007. -/
def mainISR_BIT : Nat := 1 <<< 2

/-- The test `xEventGroupValue & BIT != 0` exactly as written in part_007.
C++ gives `!=` higher precedence than `&`, so the expression parses as
`xEventGroupValue & (BIT != 0)`; the comparison's bool is promoted to 1 or 0,
and the `if` converts the resulting integer to bool (true iff nonzero). -/
def bitTestAsWritten (xEventGroupValue bitMask : Nat) : Bool :=
  (xEventGroupValue &&& (if bitMask != 0 then 1 else 0)) != 0

/-- The messages printed by one loop iteration of `vEventBitReadingTask` when
the event-group wait returned the value `v`. -/
def part007_messages (v : Nat) : List String :=
  (if bitTestAsWritten v mainFIRST_TASK_BIT then ["Event bit 0 was set"] else []) ++
    (if bitTestAsWritten v mainSECOND_TASK_BIT then ["Event bit 1 was set"] else []) ++
      (if bitTestAsWritten v mainISR_BIT then ["Event bit 2 was set"] else [])

/-! ### part_003 `periodic_NumToISR_task`: the counter update -/

/-- C++ post-increment `ctr++` on a `uint32_t`: its value is the old `ctr`, its
side effect stores `ctr + 1` (mod 2^32).  Returns (value, new `ctr`). -/
def postIncrement (ctr : Nat) : Nat × Nat :=
  (ctr, (ctr + 1) % 2 ^ 32)

/-- The inner assignment `ctr = 0`: its value is 0 and it stores 0 into `ctr`.
Returns (value, new `ctr`). -/
def innerAssignZero : Nat × Nat :=
  (0, 0)

/-- The statement `ctr = ctr > 5 ? ctr = 0 : ctr++;` of part_003 under C++17
sequencing: the right-hand side (the conditional expression) is evaluated
first, together with its side effects, and the outer assignment — sequenced
after both — stores the conditional's value into `ctr`, overwriting the side
effect of `ctr++`. -/
def ctrUpdate (ctr : Nat) : Nat :=
  if ctr > 5 then
    (innerAssignZero).1
  else
    (postIncrement ctr).1

/-- `ctr` after `n` executed iterations of the loop body of
`periodic_NumToISR_task`, starting from the initializer
`static uint32_t ctr = 0`; `accepts n` tells whether the `xQueueSendToBack` of
iteration `n` returned other than `errQUEUE_FULL` (only then is `ctr`
updated). -/
def ctrAfter (accepts : Nat → Bool) : Nat → Nat
  | 0 => 0
  | n + 1 => if accepts n then ctrUpdate (ctrAfter accepts n) else ctrAfter accepts n

/-- The value `periodic_NumToISR_task` sends to `intQueue` at iteration `n`
(the send happens before the update). -/
def part003_sentValue (accepts : Nat → Bool) (n : Nat) : Nat :=
  ctrAfter accepts n

/-- The string array of `gpio_callback` in part_003.  The missing comma after
`"String4\r\n"` concatenates the last two literals, exactly as in the source,
so the array has four elements. -/
def part003_strings : List String :=
  ["String1\r\n", "String2\r\n", "String3\r\n", "String4\r\n" ++ "String5\r\n"]

/-! ### Message queue

Modelled from the spec: the kernel's message queue is a bounded FIFO buffer
with a count of occupied slots, a send-wait list and a receive-wait list, each
ordered by (priority descending, arrival order).  `accepted` and `delivered`
are ghost traces: the items in the order they were copied into the buffer, and
in the order they were handed to receivers. -/

structure QState (α : Type) where
  cap : Nat
  buf : List α
  sendWaiters : List (Nat × α)
  recvWaiters : List Nat
  accepted : List α
  delivered : List α

/-- Insert a waiter into a wait list ordered by priority descending, behind all
waiters of priority ≥ its own (FIFO among equal priorities). -/
def insertByPrio {α : Type} (p : Nat) (x : α) : List (Nat × α) → List (Nat × α)
  | [] => [(p, x)]
  | (q, y) :: rest =>
      if q < p then (p, x) :: (q, y) :: rest
      else (q, y) :: insertByPrio p x rest

/-- Insert a blocked receiver's priority into the receive-wait list, ordered by
priority descending with FIFO among equal priorities. -/
def insertPrio (p : Nat) : List Nat → List Nat
  | [] => [p]
  | q :: rest => if q < p then p :: q :: rest else q :: insertPrio p rest

/-- Modelled from the spec: `send(item, timeout)` — if space is available the
item is copied in (accepted) and the highest-priority blocked receiver, if
any, is woken; otherwise the caller blocks, inserted into the send-wait list
ordered by (priority descending, arrival order). -/
def qSend {α : Type} (q : QState α) (p : Nat) (it : α) : QState α :=
  if q.buf.length < q.cap then
    { q with
      buf := q.buf ++ [it]
      accepted := q.accepted ++ [it]
      recvWaiters := q.recvWaiters.drop 1 }
  else
    { q with sendWaiters := insertByPrio p it q.sendWaiters }

/-- Modelled from the spec: `receive(timeout)` — if the buffer is nonempty the
head item is delivered; the highest-priority blocked sender, if any, is woken
and its item is copied into the freed slot (accepted at that moment).  On an
empty buffer the caller blocks on the receive-wait list. -/
def qReceive {α : Type} (q : QState α) (p : Nat) : QState α :=
  match q.buf with
  | [] => { q with recvWaiters := insertPrio p q.recvWaiters }
  | x :: rest =>
    match q.sendWaiters with
    | [] => { q with buf := rest, delivered := q.delivered ++ [x] }
    | (_, sit) :: ws =>
        { q with
          buf := rest ++ [sit]
          delivered := q.delivered ++ [x]
          sendWaiters := ws
          accepted := q.accepted ++ [sit] }

/-- A queue operation issued by some task: a send of an item or a receive,
each carrying the calling task's priority. -/
inductive QOp (α : Type) where
  | send (prio : Nat) (item : α)
  | receive (prio : Nat)

/-- One queue operation applied to the queue state. -/
def qStep {α : Type} (q : QState α) : QOp α → QState α
  | .send p it => qSend q p it
  | .receive p => qReceive q p

/-- A freshly created queue of capacity `cap` (as by `xQueueCreate`). -/
def mkQueue (α : Type) (cap : Nat) : QState α :=
  ⟨cap, [], [], [], [], []⟩

/-- The queue state after a sequence of operations on a fresh queue. -/
def runQueue {α : Type} (cap : Nat) (ops : List (QOp α)) : QState α :=
  ops.foldl qStep (mkQueue α cap)

/-- The queue invariant: capacity is fixed, the occupied count never exceeds
it, and the accepted trace is the delivered trace followed by the buffer
contents. -/
def QInv {α : Type} (cap : Nat) (q : QState α) : Prop :=
  q.cap = cap ∧ q.buf.length ≤ cap ∧ q.accepted = q.delivered ++ q.buf

/-- Modelled from the spec: `send_from_interrupt` — never blocks; if the
buffer is full it fails immediately leaving the state untouched; otherwise the
item is accepted, the highest-priority blocked receiver (if any) is woken, and
the returned flag reports whether that receiver's priority exceeds the
currently running task's.  Returns (state, success, higher-priority-woken). -/
def sendFromISR {α : Type} (q : QState α) (it : α) (runningPrio : Nat) :
    QState α × Bool × Bool :=
  if q.buf.length < q.cap then
    match q.recvWaiters with
    | [] => ({ q with buf := q.buf ++ [it], accepted := q.accepted ++ [it] }, true, false)
    | r :: rs =>
        ({ q with buf := q.buf ++ [it], accepted := q.accepted ++ [it], recvWaiters := rs },
          true, decide (runningPrio < r))
  else
    (q, false, false)

/-- Modelled from the spec: `receive_from_interrupt` — never blocks; on an
empty buffer it fails immediately leaving the state untouched; otherwise it
delivers the head item, wakes the highest-priority blocked sender (if any,
copying that sender's item in), and the returned flag reports whether the
woken sender's priority exceeds the currently running task's.  Returns
(state, received item, higher-priority-woken). -/
def receiveFromISR {α : Type} (q : QState α) (runningPrio : Nat) :
    QState α × Option α × Bool :=
  match q.buf with
  | [] => (q, none, false)
  | x :: rest =>
    match q.sendWaiters with
    | [] => ({ q with buf := rest, delivered := q.delivered ++ [x] }, some x, false)
    | (sp, sit) :: ws =>
        ({ q with
            buf := rest ++ [sit]
            delivered := q.delivered ++ [x]
            sendWaiters := ws
            accepted := q.accepted ++ [sit] },
          some x, decide (runningPrio < sp))

/-! ### Blocking with a timeout -/

/-- Modelled from the spec: the outcome of a blocking call — either completed
with a value, or the distinguished timed-out outcome.  There is no error,
exception or abort constructor: timeout is a normal outcome, and timeout
expiry is the only way a blocked call ends without its condition holding. -/
inductive WaitOutcome (α : Type) where
  | completed (v : α)
  | timedOut
deriving DecidableEq

/-- Modelled from the spec: a blocking primitive call with a finite timeout.
At each tick `t` from 0 to `timeout` the wait condition is consulted; if it
yields a value at some tick within the budget, the call completes with the
first such value; otherwise the caller resumes automatically when the timeout
expires and the call returns the timed-out outcome. -/
def blockWithTimeout {α : Type} (cond : Nat → Option α) (timeout : Nat) :
    WaitOutcome α :=
  match (List.range (timeout + 1)).findSome? cond with
  | some v => .completed v
  | none => .timedOut

/-! ### Scheduler core -/

/-- A task as the scheduler sees it: an identity and a priority. -/
structure Task where
  id : Nat
  prio : Nat
deriving DecidableEq

/-- Modelled from the spec: scheduler state — the single running task and the
ready registry, kept in arrival order; selection scans for the
highest-priority, earliest-arrived ready task. -/
structure Sched where
  running : Task
  ready : List Task
deriving DecidableEq

/-- Modelled from the spec: `select_next` deterministically returns the head
of the highest non-empty ready level — the earliest-arrived task of maximal
priority — together with the registry with that task removed (ties break
round-robin: the selected task leaves its level's queue). -/
def selectNext : List Task → Option (Task × List Task)
  | [] => none
  | t :: ts =>
    match selectNext ts with
    | none => some (t, ts)
    | some (u, us) => if t.prio < u.prio then some (u, t :: us) else some (t, ts)

/-- Modelled from the spec: unblocking a task — it enters the ready registry,
and a lower-priority running task is interrupted as soon as the
higher-priority task becomes ready, not merely at the next tick: the
unblocked task becomes the running task at once and the preempted one returns
to the ready registry. -/
def unblock (s : Sched) (t : Task) : Sched :=
  if s.running.prio < t.prio then
    { running := t, ready := s.ready ++ [s.running] }
  else
    { s with ready := s.ready ++ [t] }

/-! ### Event-group synchronization barrier -/

/-- Modelled from the spec: the state of an event group used as an N-party
rendezvous barrier: the bitmask, the blocked participants in arrival order,
and ghost traces of who has called `sync` and whose call has returned. -/
structure SyncState where
  bits : Nat
  blocked : List Nat
  returned : List Nat
  called : List Nat

/-- Modelled from the spec: `sync(set_mask, wait_mask, timeout)` for
participant `i` of `n`, with set mask `2^i` and wait mask `2^n - 1`: in ONE
atomic step the participant's bit is OR-ed into the group and the wait
condition is tested; if the full wait mask is now set, the caller and every
blocked participant return and the wait-mask bits are cleared on exit
(`(bits >>> n) <<< n` keeps exactly the bits outside the mask); otherwise the
caller blocks. -/
def syncCall (n : Nat) (s : SyncState) (i : Nat) : SyncState :=
  if (s.bits ||| 2 ^ i) &&& (2 ^ n - 1) = 2 ^ n - 1 then
    { bits := ((s.bits ||| 2 ^ i) >>> n) <<< n
      blocked := []
      returned := s.returned ++ s.blocked ++ [i]
      called := s.called ++ [i] }
  else
    { bits := s.bits ||| 2 ^ i
      blocked := s.blocked ++ [i]
      returned := s.returned
      called := s.called ++ [i] }

/-- The barrier state after a sequence of `sync` calls on a fresh group. -/
def runSync (n : Nat) (calls : List Nat) : SyncState :=
  calls.foldl (syncCall n) ⟨0, [], [], []⟩

/-- The barrier invariant: every bit set in the group was set by a participant
that has already called, and once any call has returned, every one of the `n`
participants has called. -/
def SInv (n : Nat) (s : SyncState) : Prop :=
  (∀ j, s.bits.testBit j = true → j ∈ s.called) ∧
    (s.returned ≠ [] → ∀ j, j < n → j ∈ s.called)

/-! ### Priority-inheritance mutex -/

/-- A task's priority record: the static priority and the effective priority
(possibly temporarily boosted by inheritance). -/
structure PrioRec where
  staticPrio : Nat
  eff : Nat
deriving DecidableEq

/-- Overwrite one task's effective priority. -/
def setEff (f : Nat → PrioRec) (t p : Nat) : Nat → PrioRec :=
  fun u => if u = t then { f u with eff := p } else f u

/-- Modelled from the spec: the state of a system of tasks sharing one
priority-inheritance mutex: each task's priority record, the current owner,
and the wait list of (recorded priority, task) pairs ordered by (priority
descending, arrival order); a waiter's recorded priority is its effective
priority at the moment it blocked. -/
structure MutexSys where
  tasks : Nat → PrioRec
  owner : Option Nat
  waiters : List (Nat × Nat)

/-- Modelled from the spec: `acquire(timeout)` by task `c` — if the mutex is
free the caller takes ownership; if held, and the holder's effective priority
is below the caller's, the holder's effective priority is atomically raised
to the caller's (priority inheritance) before the caller blocks on the wait
list ordered by (priority descending, arrival order).  Re-acquiring while
already holding or waiting is a design-time error the caller must avoid; the
model leaves the state unchanged there. -/
def mAcquire (s : MutexSys) (c : Nat) : MutexSys :=
  match s.owner with
  | none => { s with owner := some c }
  | some h =>
    if c = h ∨ c ∈ s.waiters.map Prod.snd then s
    else
      { s with
        tasks :=
          if (s.tasks h).eff < (s.tasks c).eff then setEff s.tasks h (s.tasks c).eff
          else s.tasks
        waiters := insertByPrio (s.tasks c).eff c s.waiters }

/-- Modelled from the spec: `release()` — only the holder's release has
effect; the holder's effective priority is restored exactly to its static
priority, and the highest-priority earliest-blocked waiter, if any, becomes
the new owner. -/
def mRelease (s : MutexSys) : MutexSys :=
  match s.owner with
  | none => s
  | some h =>
    match s.waiters with
    | [] =>
        { tasks := setEff s.tasks h (s.tasks h).staticPrio
          owner := none
          waiters := [] }
    | (_, w) :: ws =>
        { tasks := setEff s.tasks h (s.tasks h).staticPrio
          owner := some w
          waiters := ws }

/-- An operation on the mutex system: an acquire by some task, or a release by
the current holder. -/
inductive MOp where
  | acq (task : Nat)
  | rel

/-- One mutex operation applied to the system state. -/
def mStep (s : MutexSys) : MOp → MutexSys
  | .acq c => mAcquire s c
  | .rel => mRelease s

/-- The initial system: no owner, no waiters, every task at its static
priority. -/
def mkMutexSys (statics : Nat → Nat) : MutexSys :=
  { tasks := fun t => ⟨statics t, statics t⟩, owner := none, waiters := [] }

/-- The system state after a sequence of mutex operations. -/
def runMutex (statics : Nat → Nat) (ops : List MOp) : MutexSys :=
  ops.foldl mStep (mkMutexSys statics)

/-- The mutex invariant: non-holders sit at their static priority; each
waiter's recorded priority is its current effective priority and no waiter is
the holder; the wait list is ordered by priority descending with distinct
tasks; the holder's effective priority dominates its static priority and
every waiter's recorded priority; and a free mutex has no waiters. -/
def MInv (s : MutexSys) : Prop :=
  (∀ t, s.owner ≠ some t → (s.tasks t).eff = (s.tasks t).staticPrio) ∧
    (∀ e ∈ s.waiters, (s.tasks e.2).eff = e.1 ∧ s.owner ≠ some e.2) ∧
    List.Pairwise (fun a b : Nat × Nat => b.1 ≤ a.1) s.waiters ∧
    (s.waiters.map Prod.snd).Nodup ∧
    (∀ h, s.owner = some h →
      (s.tasks h).staticPrio ≤ (s.tasks h).eff ∧
        ∀ e ∈ s.waiters, e.1 ≤ (s.tasks h).eff) ∧
    (s.owner = none → s.waiters = [])

/-! ### Direct task notification -/

/-- The notify actions of the direct-task-notification primitive. -/
inductive NotifyAction where
  | setBitsAction (v : Nat)
  | increment
  | overwriteIfNoneEarlierPending (v : Nat)
  | overwriteAlways (v : Nat)
  | noAction

/-- A task's single notification slot: one 32-bit value and the
Pending/NotPending flag. -/
structure NotifSlot where
  value : Nat
  pending : Bool
deriving DecidableEq

/-- Modelled from the spec: `notify(task, value, action)` — combines or
overwrites the single slot's value per the action and marks the slot pending.
The slot is the only storage: a second notify before consumption is coalesced
per the action, never queued.  Values are 32-bit (mod 2^32). -/
def notify (s : NotifSlot) (a : NotifyAction) : NotifSlot :=
  match a with
  | .setBitsAction v => { value := (s.value ||| v) % 2 ^ 32, pending := true }
  | .increment => { value := (s.value + 1) % 2 ^ 32, pending := true }
  | .overwriteIfNoneEarlierPending v =>
      if s.pending then s else { value := v % 2 ^ 32, pending := true }
  | .overwriteAlways v => { value := v % 2 ^ 32, pending := true }
  | .noAction => { s with pending := true }

/-- Modelled from the spec: `wait` with full clear-on-exit — if a notification
is pending it returns the value and atomically clears the slot to NotPending;
otherwise there is nothing to consume. -/
def notifWait (s : NotifSlot) : Option Nat × NotifSlot :=
  if s.pending then (some s.value, { value := 0, pending := false }) else (none, s)

/-! ### Helper lemmas on bit patterns -/

/-- `|=` on a bool flag is boolean disjunction with the nonzero test. -/
theorem boolOrAssign_eq (e : Bool) (r : Nat) :
    boolOrAssign e r = (e || (r != 0)) := by
  cases e with
  | false =>
      simp [boolOrAssign]
  | true =>
      have h : (1 ||| r) ≠ 0 := by
        intro h0
        have := congrArg (fun z => z.testBit 0) h0
        simp at this
      simp [boolOrAssign, h]

/-- Masking with 1 and testing nonzero is exactly reading bit 0. -/
theorem and_one_ne_zero (v : Nat) : ((v &&& 1) != 0) = v.testBit 0 := by
  have h1 : v &&& 1 = v % 2 := Nat.and_one_is_mod v
  rw [h1, Nat.testBit_zero]
  rcases Nat.mod_two_eq_zero_or_one v with h | h <;> rw [h] <;> rfl

/-- Each queue operation preserves the queue invariant. -/
theorem qStep_preserves {α : Type} (cap : Nat) (q : QState α) (op : QOp α)
    (h : QInv cap q) : QInv cap (qStep q op) := by
  obtain ⟨hc, hl, ha⟩ := h
  cases op with
  | send p it =>
      rw [qStep]
      unfold qSend
      split
      · refine ⟨hc, ?_, ?_⟩
        · have hlt : q.buf.length < cap := by rw [← hc]; assumption
          simpa using hlt
        · rw [ha]
          simp
      · exact ⟨hc, hl, ha⟩
  | receive p =>
      rw [qStep]
      unfold qReceive
      split
      · exact ⟨hc, hl, ha⟩
      · rename_i x rest heq
        split
        · refine ⟨hc, ?_, ?_⟩
          · show rest.length ≤ cap
            have hx : q.buf.length ≤ cap := hl
            rw [heq] at hx
            simp at hx
            omega
          · rw [ha, heq]
            simp
        · rename_i sp sit ws heq2
          refine ⟨hc, ?_, ?_⟩
          · have : q.buf.length ≤ cap := hl
            rw [heq] at this
            simpa using this
          · rw [ha, heq]
            simp


/-- C8: in `main` of part_008 the two `xTaskCreate` results are accumulated
with bitwise OR into a single bool flag and the message "Task creation failed"
is printed only when that flag is not `true`; consequently, whenever at least
one of the two creations returns a nonzero pattern, no failure message is
printed — even if the other creation failed. -/
theorem part008_single_failure_unreported (r1 r2 : Nat) (h : r1 ≠ 0 ∨ r2 ≠ 0) :
    part008_printsFailure r1 r2 = false := by
  have he : part008_error r1 r2 = ((r1 != 0) || (r2 != 0)) := by
    rw [part008_error, boolOrAssign_eq, boolOrAssign_eq]
    simp
  have ht : part008_error r1 r2 = true := by
    rw [he]
    rcases h with h | h
    · simp [h]
    · simp [h]
  rw [part008_printsFailure, ht]
  rfl

/-- Witness for C8: the first creation fails (pattern of -1) while the second
succeeds (`pdPASS` = 1), and no failure message is printed. -/
theorem part008_single_failure_unreported_witness :
    part008_printsFailure (2 ^ 32 - 1) 1 = false :=
  part008_single_failure_unreported (2 ^ 32 - 1) 1 (by decide)

/-- C9: each of the three tests `xEventGroupValue & BIT != 0` in
`vEventBitReadingTask` parses as `xEventGroupValue & (BIT != 0)`, i.e.
`xEventGroupValue & 1`, so the three messages are printed if and only if bit 0
of the returned value is set, independently of bits 1 and 2. -/
theorem part007_all_tests_read_bit0 (v : Nat) :
    part007_messages v =
      if v.testBit 0 then
        ["Event bit 0 was set", "Event bit 1 was set", "Event bit 2 was set"]
      else [] := by
  have hb : ∀ m : Nat, m ≠ 0 → bitTestAsWritten v m = v.testBit 0 := by
    intro m hm
    rw [bitTestAsWritten]
    have : (m != 0) = true := by simpa using hm
    rw [this]
    simpa using and_one_ne_zero v
  rw [part007_messages, hb mainFIRST_TASK_BIT (by decide),
    hb mainSECOND_TASK_BIT (by decide), hb mainISR_BIT (by decide)]
  cases hv : v.testBit 0 <;> simp

/-- C10: under C++17 sequencing the statement `ctr = ctr > 5 ? ctr = 0 : ctr++;`
assigns the pre-increment value back to `ctr`, so `ctr` stays 0 on every
iteration, every value sent to `intQueue` is 0, and the ISR only ever reads
element 0 of its string array. -/
theorem part003_ctr_always_zero (accepts : Nat → Bool) (n : Nat) :
    part003_sentValue accepts n = 0 ∧
      part003_strings[part003_sentValue accepts n]? = some "String1\r\n" := by
  have h : ∀ k, ctrAfter accepts k = 0 := by
    intro k
    induction k with
    | zero => rfl
    | succ k ih =>
        rw [ctrAfter]
        cases accepts k <;> simp [ih, ctrUpdate, postIncrement]
  refine ⟨h n, ?_⟩
  rw [part003_sentValue, h n]
  rfl

/-- Every sequence of operations on a fresh queue keeps the queue invariant. -/
theorem runQueue_inv {α : Type} (cap : Nat) (ops : List (QOp α)) :
    QInv cap (runQueue cap ops) := by
  rw [runQueue]
  have h0 : QInv cap (mkQueue α cap) := ⟨rfl, Nat.zero_le cap, rfl⟩
  have hgen : ∀ (l : List (QOp α)) (q : QState α), QInv cap q →
      QInv cap (l.foldl qStep q) := by
    intro l
    induction l with
    | nil => intro q hq; exact hq
    | cons op l ih =>
        intro q hq
        exact ih (qStep q op) (qStep_preserves cap q op hq)
  exact hgen ops (mkQueue α cap) h0

/-- C1: for every queue created with capacity `cap` and every sequence of send
and receive operations — including sequences where tasks block as waiters —
the occupied count stays in [0, cap] after every operation, and items are
delivered to receivers in exactly the order they were accepted by send: the
delivered trace is a prefix of the accepted trace. -/
theorem queue_count_bounded_and_fifo {α : Type} (cap : Nat) (ops : List (QOp α)) :
    (runQueue cap ops).buf.length ≤ cap ∧
      ∃ pending, (runQueue cap ops).accepted = (runQueue cap ops).delivered ++ pending := by
  obtain ⟨hc, hl, ha⟩ := runQueue_inv cap ops
  exact ⟨hl, (runQueue cap ops).buf, ha⟩

/-- C5: the interrupt-context queue variants never block the caller: no wait
list gains the caller; when the operation cannot complete immediately it
returns a failure result at once with the state untouched; and the out-flag is
true exactly when a waiting task whose priority exceeds the currently running
task's was unblocked. -/
theorem fromISR_never_blocks {α : Type} (q : QState α) (it : α) (rp : Nat) :
    (sendFromISR q it rp).1.sendWaiters = q.sendWaiters ∧
      (q.cap ≤ q.buf.length → sendFromISR q it rp = (q, false, false)) ∧
      ((sendFromISR q it rp).2.2 = true ↔
        q.buf.length < q.cap ∧ ∃ r rs, q.recvWaiters = r :: rs ∧ rp < r) ∧
      (receiveFromISR q rp).1.recvWaiters = q.recvWaiters ∧
      (q.buf = [] → receiveFromISR q rp = (q, none, false)) ∧
      ((receiveFromISR q rp).2.2 = true ↔
        ∃ x bs sp sit ws, q.buf = x :: bs ∧ q.sendWaiters = (sp, sit) :: ws ∧ rp < sp) := by
  refine ⟨?_, ?_, ?_, ?_, ?_, ?_⟩
  · by_cases hlen : q.buf.length < q.cap
    · rcases hr : q.recvWaiters with _ | ⟨r, rs⟩ <;> simp [sendFromISR, hlen, hr]
    · simp [sendFromISR, hlen]
  · intro hfull
    simp [sendFromISR, Nat.not_lt.mpr hfull]
  · by_cases hlen : q.buf.length < q.cap
    · rcases hr : q.recvWaiters with _ | ⟨r, rs⟩ <;>
        simp [sendFromISR, hlen, hr]
    · simp [sendFromISR, hlen, Nat.not_lt.mp hlen]
  · rcases hb : q.buf with _ | ⟨x, rest⟩
    · simp [receiveFromISR, hb]
    · rcases hs : q.sendWaiters with _ | ⟨⟨sp, sit⟩, ws⟩ <;>
        simp [receiveFromISR, hb, hs]
  · intro hempty
    simp [receiveFromISR, hempty]
  · rcases hb : q.buf with _ | ⟨x, rest⟩
    · simp [receiveFromISR, hb]
    · rcases hs : q.sendWaiters with _ | ⟨⟨sp, sit⟩, ws⟩ <;>
        simp [receiveFromISR, hb, hs]

/-- Witness for C5: on a zero-capacity (full) and empty queue both variants
fail immediately without blocking, with the state unchanged. -/
theorem fromISR_never_blocks_witness :
    sendFromISR (mkQueue Nat 0) 5 0 = (mkQueue Nat 0, false, false) ∧
      receiveFromISR (mkQueue Nat 0) 0 = (mkQueue Nat 0, none, false) :=
  ⟨(fromISR_never_blocks (mkQueue Nat 0) 5 0).2.1 (by decide),
    (fromISR_never_blocks (mkQueue Nat 0) 5 0).2.2.2.2.1 rfl⟩

/-- C7: a blocking call made with a finite timeout whose wait condition is
never satisfied within the budget resumes automatically when the timeout
expires and returns the distinguished timed-out outcome — an ordinary result
value of the two-outcome result type, not an error, exception or abort, and
the model offers no other way for a blocked call to end early. -/
theorem blocked_call_times_out {α : Type} (cond : Nat → Option α) (timeout : Nat)
    (h : ∀ t, t ≤ timeout → cond t = none) :
    blockWithTimeout cond timeout = WaitOutcome.timedOut := by
  rw [blockWithTimeout]
  have hnone : (List.range (timeout + 1)).findSome? cond = none := by
    rw [List.findSome?_eq_none_iff]
    intro x hx
    exact h x (Nat.lt_succ_iff.mp (List.mem_range.mp hx))
  rw [hnone]

/-- Witness for C7: a condition that never fires makes the call time out. -/
theorem blocked_call_times_out_witness :
    blockWithTimeout (fun _ => (none : Option Nat)) 3 = WaitOutcome.timedOut :=
  blocked_call_times_out (fun _ => none) 3 (fun _ _ => rfl)

/-- `select_next` never returns `none` on a non-empty ready registry. -/
theorem selectNext_eq_none : ∀ l : List Task, selectNext l = none → l = [] := by
  intro l h
  cases l with
  | nil => rfl
  | cons t ts =>
      rcases hs : selectNext ts with _ | ⟨w, ws⟩
      · simp only [selectNext, hs] at h
        exact absurd h (by simp)
      · simp only [selectNext, hs] at h
        split at h <;> simp at h

/-- `select_next` picks a task of maximal priority among the ready tasks. -/
theorem selectNext_maximal : ∀ (l : List Task) (u : Task) (rest : List Task),
    selectNext l = some (u, rest) → ∀ v ∈ l, v.prio ≤ u.prio := by
  intro l
  induction l with
  | nil => intro u rest h; simp [selectNext] at h
  | cons t ts ih =>
      intro u rest h v hv
      rcases hs : selectNext ts with _ | ⟨w, ws⟩
      · simp only [selectNext, hs] at h
        have h1 : t = u := congrArg Prod.fst (Option.some.inj h)
        have hts : ts = [] := selectNext_eq_none ts hs
        subst h1
        subst hts
        simp at hv
        subst hv
        exact Nat.le_refl _
      · simp only [selectNext, hs] at h
        by_cases hc : t.prio < w.prio
        · rw [if_pos hc] at h
          have h1 : w = u := congrArg Prod.fst (Option.some.inj h)
          subst h1
          rcases List.mem_cons.mp hv with rfl | hv2
          · exact Nat.le_of_lt hc
          · exact ih w ws hs v hv2
        · rw [if_neg hc] at h
          have h1 : t = u := congrArg Prod.fst (Option.some.inj h)
          subst h1
          rcases List.mem_cons.mp hv with rfl | hv2
          · exact Nat.le_refl _
          · exact Nat.le_trans (ih w ws hs v hv2) (Nat.not_lt.mp hc)

/-- C2: when a task of priority p2 is unblocked while a task of lower priority
p1 is running, the scheduler preempts at the moment of unblocking — the
unblocked task becomes the running task at once and the preempted task is
demoted to the ready registry — and as long as a strictly-higher-priority task
sits in the ready registry, `select_next` can never pick the p1 task, so the
p2 task runs before the p1 task executes again. -/
theorem higher_priority_preempts_immediately (s : Sched) (t : Task)
    (h : s.running.prio < t.prio) :
    (unblock s t).running = t ∧ s.running ∈ (unblock s t).ready ∧
      ∀ (l : List Task) (u : Task) (rest : List Task),
        t ∈ l → u.prio < t.prio → selectNext l ≠ some (u, rest) := by
  refine ⟨?_, ?_, ?_⟩
  · rw [unblock, if_pos h]
  · rw [unblock, if_pos h]
    simp
  · intro l u rest htl hu hsel
    have := selectNext_maximal l u rest hsel t htl
    omega

/-- Witness for C2: a priority-3 task unblocked while a priority-1 task runs
becomes the running task, and `select_next` cannot pick the priority-1 task
while the priority-3 task is ready. -/
theorem higher_priority_preempts_immediately_witness :
    (unblock ⟨⟨0, 1⟩, []⟩ ⟨1, 3⟩).running = ⟨1, 3⟩ ∧
      selectNext [⟨0, 1⟩, ⟨1, 3⟩] ≠ some (⟨0, 1⟩, [⟨1, 3⟩]) := by
  have h := higher_priority_preempts_immediately ⟨⟨0, 1⟩, []⟩ ⟨1, 3⟩ (by decide)
  exact ⟨h.1, h.2.2 [⟨0, 1⟩, ⟨1, 3⟩] ⟨0, 1⟩ [⟨1, 3⟩] (by decide) (by decide)⟩

/-- Each `sync` call preserves the barrier invariant. -/
theorem syncCall_preserves (n : Nat) (s : SyncState) (i : Nat) (h : SInv n s) :
    SInv n (syncCall n s i) := by
  obtain ⟨h1, h2⟩ := h
  have hbits1 : ∀ j, (s.bits ||| 2 ^ i).testBit j = true → j ∈ s.called ++ [i] := by
    intro j hj
    rw [Nat.testBit_or, Bool.or_eq_true] at hj
    rcases hj with hj1 | hj2
    · exact List.mem_append.mpr (Or.inl (h1 j hj1))
    · rw [Nat.testBit_two_pow] at hj2
      have hij : i = j := of_decide_eq_true hj2
      subst hij
      simp
  rw [syncCall]
  split
  · rename_i hcond
    refine ⟨?_, ?_⟩
    · intro j hj
      rw [Nat.testBit_shiftLeft, Nat.testBit_shiftRight] at hj
      have hle : n ≤ j := of_decide_eq_true (Bool.and_eq_true_iff.mp hj).1
      have hbit : ((s.bits ||| 2 ^ i)).testBit (n + (j - n)) = true :=
        (Bool.and_eq_true_iff.mp hj).2
      rw [Nat.add_sub_cancel' hle] at hbit
      exact hbits1 j hbit
    · intro _ j hjn
      have hj2 : (s.bits ||| 2 ^ i).testBit j = true := by
        have h5 := congrArg (fun z => z.testBit j) hcond
        simp only [Nat.testBit_and, Nat.testBit_two_pow_sub_one,
          decide_eq_true hjn, Bool.and_true] at h5
        exact h5
      exact hbits1 j hj2
  · refine ⟨?_, ?_⟩
    · intro j hj
      exact hbits1 j hj
    · intro hr j hjn
      exact List.mem_append.mpr (Or.inl (h2 hr j hjn))

/-- Every sequence of `sync` calls on a fresh group keeps the barrier
invariant. -/
theorem runSync_inv (n : Nat) (calls : List Nat) : SInv n (runSync n calls) := by
  rw [runSync]
  have h0 : SInv n ⟨0, [], [], []⟩ := by
    constructor
    · intro j hj
      simp [Nat.testBit] at hj
    · intro hr
      simp at hr
  have hgen : ∀ (l : List Nat) (s : SyncState), SInv n s →
      SInv n (l.foldl (syncCall n) s) := by
    intro l
    induction l with
    | nil => intro s hs; exact hs
    | cons c l ih =>
        intro s hs
        exact ih (syncCall n s c) (syncCall_preserves n s c hs)
  exact hgen calls ⟨0, [], [], []⟩ h0

/-- C4: in the atomic set-then-wait barrier with `n` participants, each using
a distinct bit and a wait mask covering all `n` bits, no `sync` call returns
before all `n` participants have called: whenever any call has returned, every
participant below `n` has already issued its call. -/
theorem sync_no_return_before_all_called (n : Nat) (calls : List Nat)
    (h : (runSync n calls).returned ≠ []) :
    ∀ j, j < n → j ∈ (runSync n calls).called :=
  (runSync_inv n calls).2 h

/-- Witness for C4: with two participants, after calls by 0 and 1 the barrier
has released and participant 0 is among the callers. -/
theorem sync_no_return_before_all_called_witness :
    0 ∈ (runSync 2 [0, 1]).called :=
  sync_no_return_before_all_called 2 [0, 1] (by decide) 0 (by decide)

/-- C6: a task's notification slot holds at most one outstanding
notification: two notifies with action OverwriteIfNoneEarlierPending issued
before any wait leave the value equal to the first call's value, a single
wait consumes that one value, and a second wait finds nothing pending — the
second notify was coalesced, never queued. -/
theorem notification_coalesced (s : NotifSlot) (v1 v2 : Nat)
    (h : s.pending = false) :
    (notify (notify s (.overwriteIfNoneEarlierPending v1))
        (.overwriteIfNoneEarlierPending v2)).value = v1 % 2 ^ 32 ∧
      (notify (notify s (.overwriteIfNoneEarlierPending v1))
        (.overwriteIfNoneEarlierPending v2)).pending = true ∧
      (notifWait (notify (notify s (.overwriteIfNoneEarlierPending v1))
        (.overwriteIfNoneEarlierPending v2))).1 = some (v1 % 2 ^ 32) ∧
      (notifWait (notifWait (notify (notify s (.overwriteIfNoneEarlierPending v1))
        (.overwriteIfNoneEarlierPending v2))).2).1 = none := by
  simp [notify, notifWait, h]

/-- Witness for C6: notifying 7 then 9 into an empty slot leaves the value 7,
not 9. -/
theorem notification_coalesced_witness :
    (notify (notify ⟨0, false⟩ (.overwriteIfNoneEarlierPending 7))
      (.overwriteIfNoneEarlierPending 9)).value = 7 % 2 ^ 32 :=
  (notification_coalesced ⟨0, false⟩ 7 9 rfl).1

/-- `setEff` at the modified task. -/
theorem setEff_same (f : Nat → PrioRec) (t p : Nat) :
    setEff f t p t = { f t with eff := p } := by
  simp [setEff]

/-- `setEff` leaves every other task unchanged. -/
theorem setEff_other (f : Nat → PrioRec) (t p u : Nat) (h : u ≠ t) :
    setEff f t p u = f u := by
  simp [setEff, h]

/-- Membership in an insertion-by-priority. -/
theorem mem_insertByPrio {α : Type} (p : Nat) (x : α) :
    ∀ (l : List (Nat × α)) (e : Nat × α),
      e ∈ insertByPrio p x l ↔ e = (p, x) ∨ e ∈ l := by
  intro l
  induction l with
  | nil => intro e; simp [insertByPrio]
  | cons a l ih =>
      obtain ⟨q, y⟩ := a
      intro e
      rw [insertByPrio]
      split
      · simp only [List.mem_cons]
      · rw [List.mem_cons, ih e, List.mem_cons]
        tauto

/-- The task ids of an insertion-by-priority are a permutation of the inserted
id together with the old ids. -/
theorem map_snd_insertByPrio (p x : Nat) :
    ∀ l : List (Nat × Nat),
      ((insertByPrio p x l).map Prod.snd).Perm (x :: l.map Prod.snd) := by
  intro l
  induction l with
  | nil => simp [insertByPrio]
  | cons a l ih =>
      obtain ⟨q, y⟩ := a
      rw [insertByPrio]
      split
      · simp
      · simp only [List.map_cons]
        exact (ih.cons y).trans (List.Perm.swap x y (l.map Prod.snd))

/-- Insertion-by-priority keeps the wait list ordered by priority
descending. -/
theorem pairwise_insertByPrio {α : Type} (p : Nat) (x : α) :
    ∀ l : List (Nat × α),
      List.Pairwise (fun a b => b.1 ≤ a.1) l →
        List.Pairwise (fun a b => b.1 ≤ a.1) (insertByPrio p x l) := by
  intro l
  induction l with
  | nil => intro _; simp [insertByPrio]
  | cons a l ih =>
      obtain ⟨q, y⟩ := a
      intro hp
      rw [List.pairwise_cons] at hp
      obtain ⟨hq, hl⟩ := hp
      rw [insertByPrio]
      split
      · rename_i hlt
        refine List.Pairwise.cons ?_ (List.Pairwise.cons hq hl)
        intro e he
        rcases List.mem_cons.mp he with rfl | he2
        · exact Nat.le_of_lt hlt
        · exact Nat.le_trans (hq e he2) (Nat.le_of_lt hlt)
      · rename_i hge
        refine List.Pairwise.cons ?_ (ih hl)
        intro e he
        rcases (mem_insertByPrio p x l e).mp he with rfl | he2
        · exact Nat.not_lt.mp hge
        · exact hq e he2

/-- Each mutex operation preserves the mutex invariant. -/
theorem mStep_preserves (s : MutexSys) (op : MOp) (h : MInv s) :
    MInv (mStep s op) := by
  obtain ⟨h1, h2, h3, h4, h5, h6⟩ := h
  cases op with
  | acq c =>
      rw [mStep]
      unfold mAcquire
      split
      · rename_i ho
        have hw : s.waiters = [] := h6 ho
        refine ⟨?_, ?_, ?_, ?_, ?_, ?_⟩
        · intro t _
          show (s.tasks t).eff = (s.tasks t).staticPrio
          exact h1 t (by simp [ho])
        · intro e he
          exact absurd (hw ▸ (he : e ∈ s.waiters)) (List.not_mem_nil e)
        · show List.Pairwise _ s.waiters
          rw [hw]
          exact List.Pairwise.nil
        · show (s.waiters.map Prod.snd).Nodup
          rw [hw]
          exact List.nodup_nil
        · intro h' hh'
          have hch : c = h' := Option.some.inj hh'
          subst hch
          have he : (s.tasks c).eff = (s.tasks c).staticPrio := h1 c (by simp [ho])
          refine ⟨Nat.le_of_eq he.symm, ?_⟩
          intro e he2
          exact absurd (hw ▸ (he2 : e ∈ s.waiters)) (List.not_mem_nil e)
        · intro hnone
          exact Option.noConfusion hnone
      · rename_i h0 ho
        split
        · exact ⟨h1, h2, h3, h4, h5, h6⟩
        · rename_i hg
          obtain ⟨hch, hcw⟩ := not_or.mp hg
          have htasks : ∀ t, t ≠ h0 →
              (if (s.tasks h0).eff < (s.tasks c).eff then
                  setEff s.tasks h0 (s.tasks c).eff
                else s.tasks) t = s.tasks t := by
            intro t ht
            split
            · exact setEff_other s.tasks h0 _ t ht
            · rfl
          have heffh0 : ((if (s.tasks h0).eff < (s.tasks c).eff then
              setEff s.tasks h0 (s.tasks c).eff else s.tasks) h0).eff =
              max (s.tasks h0).eff (s.tasks c).eff := by
            split
            · rename_i hb
              rw [setEff_same]
              show (s.tasks c).eff = _
              rw [Nat.max_eq_right (Nat.le_of_lt hb)]
            · rename_i hb
              rw [Nat.max_eq_left (Nat.not_lt.mp hb)]
          have hstath0 : ((if (s.tasks h0).eff < (s.tasks c).eff then
              setEff s.tasks h0 (s.tasks c).eff else s.tasks) h0).staticPrio =
              (s.tasks h0).staticPrio := by
            split
            · rw [setEff_same]
            · rfl
          refine ⟨?_, ?_, ?_, ?_, ?_, ?_⟩
          · intro t ht
            have ht' : s.owner ≠ some t := ht
            have hth0 : t ≠ h0 := fun hx => ht' (by rw [hx]; exact ho)
            show ((if (s.tasks h0).eff < (s.tasks c).eff then
                setEff s.tasks h0 (s.tasks c).eff else s.tasks) t).eff =
              ((if (s.tasks h0).eff < (s.tasks c).eff then
                setEff s.tasks h0 (s.tasks c).eff else s.tasks) t).staticPrio
            rw [htasks t hth0]
            exact h1 t ht'
          · intro e he
            have he' : e ∈ insertByPrio (s.tasks c).eff c s.waiters := he
            rcases (mem_insertByPrio (s.tasks c).eff c s.waiters e).mp he' with rfl | he2
            · refine ⟨?_, ?_⟩
              · show ((if (s.tasks h0).eff < (s.tasks c).eff then
                    setEff s.tasks h0 (s.tasks c).eff else s.tasks) c).eff =
                  (s.tasks c).eff
                rw [htasks c hch]
              · show s.owner ≠ some c
                rw [ho]
                exact fun hx => hch (Option.some.inj hx).symm
            · obtain ⟨he3, he4⟩ := h2 e he2
              have heh0 : e.2 ≠ h0 := fun hx => he4 (by rw [hx]; exact ho)
              refine ⟨?_, ?_⟩
              · show ((if (s.tasks h0).eff < (s.tasks c).eff then
                    setEff s.tasks h0 (s.tasks c).eff else s.tasks) e.2).eff = e.1
                rw [htasks e.2 heh0]
                exact he3
              · exact he4
          · exact pairwise_insertByPrio (s.tasks c).eff c s.waiters h3
          · exact (map_snd_insertByPrio (s.tasks c).eff c s.waiters).nodup_iff.mpr
              (List.nodup_cons.mpr ⟨hcw, h4⟩)
          · intro h' hh'
            have hh'' : s.owner = some h' := hh'
            have hh0 : h0 = h' := Option.some.inj (ho.symm.trans hh'')
            subst hh0
            obtain ⟨h5a, h5b⟩ := h5 h0 ho
            refine ⟨?_, ?_⟩
            · show ((if (s.tasks h0).eff < (s.tasks c).eff then
                  setEff s.tasks h0 (s.tasks c).eff else s.tasks) h0).staticPrio ≤
                ((if (s.tasks h0).eff < (s.tasks c).eff then
                  setEff s.tasks h0 (s.tasks c).eff else s.tasks) h0).eff
              rw [heffh0, hstath0]
              exact Nat.le_trans h5a (Nat.le_max_left _ _)
            · intro e he
              have he' : e ∈ insertByPrio (s.tasks c).eff c s.waiters := he
              rcases (mem_insertByPrio (s.tasks c).eff c s.waiters e).mp he' with rfl | he2
              · show (s.tasks c).eff ≤ ((if (s.tasks h0).eff < (s.tasks c).eff then
                    setEff s.tasks h0 (s.tasks c).eff else s.tasks) h0).eff
                rw [heffh0]
                exact Nat.le_max_right _ _
              · show e.1 ≤ ((if (s.tasks h0).eff < (s.tasks c).eff then
                    setEff s.tasks h0 (s.tasks c).eff else s.tasks) h0).eff
                rw [heffh0]
                exact Nat.le_trans (h5b e he2) (Nat.le_max_left _ _)
          · intro hnone
            have : some h0 = none := ho.symm.trans hnone
            exact Option.noConfusion this
  | rel =>
      rw [mStep]
      unfold mRelease
      split
      · exact ⟨h1, h2, h3, h4, h5, h6⟩
      · rename_i h0 ho
        split
        · refine ⟨?_, ?_, ?_, ?_, ?_, ?_⟩
          · intro t _
            show (setEff s.tasks h0 (s.tasks h0).staticPrio t).eff =
              (setEff s.tasks h0 (s.tasks h0).staticPrio t).staticPrio
            by_cases hth0 : t = h0
            · subst hth0
              simp [setEff]
            · rw [setEff_other s.tasks h0 _ t hth0]
              exact h1 t (by rw [ho]; exact fun hx => hth0 (Option.some.inj hx).symm)
          · intro e he
            exact absurd he (List.not_mem_nil e)
          · exact List.Pairwise.nil
          · exact List.nodup_nil
          · intro h' hh'
            exact Option.noConfusion hh'
          · intro _
            rfl
        · rename_i p w ws hw
          have hhead : (s.tasks w).eff = p ∧ s.owner ≠ some w := by
            have := h2 (p, w) (by rw [hw]; exact List.mem_cons_self _ _)
            exact this
          have hwh0 : w ≠ h0 := by
            intro hx
            exact hhead.2 (by rw [hx]; exact ho)
          have hnodup : w ∉ ws.map Prod.snd := by
            have h4' := h4
            rw [hw] at h4'
            simp only [List.map_cons, List.nodup_cons] at h4'
            exact h4'.1
          refine ⟨?_, ?_, ?_, ?_, ?_, ?_⟩
          · intro t ht
            show (setEff s.tasks h0 (s.tasks h0).staticPrio t).eff =
              (setEff s.tasks h0 (s.tasks h0).staticPrio t).staticPrio
            by_cases hth0 : t = h0
            · subst hth0
              simp [setEff]
            · rw [setEff_other s.tasks h0 _ t hth0]
              exact h1 t (by rw [ho]; exact fun hx => hth0 (Option.some.inj hx).symm)
          · intro e he
            have he2 : e ∈ s.waiters := by
              rw [hw]
              exact List.mem_cons_of_mem _ he
            obtain ⟨he3, he4⟩ := h2 e he2
            have heh0 : e.2 ≠ h0 := fun hx => he4 (by rw [hx]; exact ho)
            refine ⟨?_, ?_⟩
            · show (setEff s.tasks h0 (s.tasks h0).staticPrio e.2).eff = e.1
              rw [setEff_other s.tasks h0 _ e.2 heh0]
              exact he3
            · show some w ≠ some e.2
              intro hx
              have hew : e.2 = w := (Option.some.inj hx).symm
              exact hnodup (hew ▸ List.mem_map_of_mem Prod.snd he)
          · have h3' := h3
            rw [hw, List.pairwise_cons] at h3'
            exact h3'.2
          · have h4' := h4
            rw [hw] at h4'
            simp only [List.map_cons, List.nodup_cons] at h4'
            exact h4'.2
          · intro h' hh'
            have hh'w : w = h' := Option.some.inj hh'
            subst hh'w
            have heffw : (s.tasks w).eff = p := hhead.1
            have hstatw : (s.tasks w).eff = (s.tasks w).staticPrio :=
              h1 w (by rw [ho]; exact fun hx => hwh0 (Option.some.inj hx).symm)
            refine ⟨?_, ?_⟩
            · show (setEff s.tasks h0 (s.tasks h0).staticPrio w).staticPrio ≤
                (setEff s.tasks h0 (s.tasks h0).staticPrio w).eff
              rw [setEff_other s.tasks h0 _ w hwh0]
              omega
            · intro e he
              show e.1 ≤ (setEff s.tasks h0 (s.tasks h0).staticPrio w).eff
              rw [setEff_other s.tasks h0 _ w hwh0, heffw]
              have h3' := h3
              rw [hw, List.pairwise_cons] at h3'
              exact h3'.1 e he
          · intro hx
            exact Option.noConfusion hx

/-- Every sequence of operations from the initial state keeps the mutex
invariant. -/
theorem runMutex_inv (statics : Nat → Nat) (ops : List MOp) :
    MInv (runMutex statics ops) := by
  rw [runMutex]
  have h0 : MInv (mkMutexSys statics) := by
    refine ⟨?_, ?_, ?_, ?_, ?_, ?_⟩
    · intro t _
      rfl
    · intro e he
      exact absurd he (List.not_mem_nil e)
    · exact List.Pairwise.nil
    · exact List.nodup_nil
    · intro h' hh'
      exact absurd hh' (by simp [mkMutexSys])
    · intro _
      rfl
  have hgen : ∀ (l : List MOp) (s : MutexSys), MInv s → MInv (l.foldl mStep s) := by
    intro l
    induction l with
    | nil => intro s hs; exact hs
    | cons op l ih =>
        intro s hs
        exact ih (mStep s op) (mStep_preserves s op hs)
  exact hgen ops (mkMutexSys statics) h0

/-- C3: while a task holds the priority-inheritance mutex, its effective
priority is at least the maximum of its own static priority and the effective
priority of every task currently blocked on that mutex; and immediately after
the holder releases the mutex, its effective priority equals exactly its
static priority. -/
theorem mutex_priority_inheritance (statics : Nat → Nat) (ops : List MOp) :
    (∀ h, (runMutex statics ops).owner = some h →
        ((runMutex statics ops).tasks h).staticPrio ≤
            ((runMutex statics ops).tasks h).eff ∧
          ∀ e ∈ (runMutex statics ops).waiters,
            ((runMutex statics ops).tasks e.2).eff ≤
              ((runMutex statics ops).tasks h).eff) ∧
      ∀ h, (runMutex statics ops).owner = some h →
        ((mRelease (runMutex statics ops)).tasks h).eff =
          ((runMutex statics ops).tasks h).staticPrio := by
  obtain ⟨h1, h2, h3, h4, h5, h6⟩ := runMutex_inv statics ops
  constructor
  · intro h hh
    obtain ⟨h5a, h5b⟩ := h5 h hh
    refine ⟨h5a, ?_⟩
    intro e he
    have := (h2 e he).1
    have := h5b e he
    omega
  · intro h hh
    unfold mRelease
    rw [hh]
    rcases hw : (runMutex statics ops).waiters with _ | ⟨⟨p, w⟩, ws⟩
    · show (setEff (runMutex statics ops).tasks h
        ((runMutex statics ops).tasks h).staticPrio h).eff = _
      rw [setEff_same]
    · show (setEff (runMutex statics ops).tasks h
        ((runMutex statics ops).tasks h).staticPrio h).eff = _
      rw [setEff_same]

/-- Witness for C3: task 1 (static priority 1) acquires the mutex, then task 3
(static priority 3) blocks on it; the holder's effective priority dominates
its static priority, and a release restores it exactly to the static
priority. -/
theorem mutex_priority_inheritance_witness :
    (((runMutex id [MOp.acq 1, MOp.acq 3]).tasks 1).staticPrio ≤
        ((runMutex id [MOp.acq 1, MOp.acq 3]).tasks 1).eff) ∧
      ((mRelease (runMutex id [MOp.acq 1, MOp.acq 3])).tasks 1).eff =
        ((runMutex id [MOp.acq 1, MOp.acq 3]).tasks 1).staticPrio := by
  have h := mutex_priority_inheritance id [MOp.acq 1, MOp.acq 3]
  exact ⟨(h.1 1 rfl).1, h.2 1 rfl⟩

end PicoFreeRTOS
